import Mathlib

/-
Verification development for the ikkuna publish/subscribe messaging core
(src/ikkuna/export/subscriber/subscriber.py and src/ikkuna/export/export.py).

The Python classes are shallowly embedded as Lean structures; exception-raising
methods become functions into `Except PyError`.  Python dictionaries (which are
insertion-ordered) are embedded as association lists with distinct keys, where
assignment to an existing key rewrites the entry in place and assignment to a
fresh key appends at the end.  Tensors are opaque to the messaging core, so a
payload is represented by an abstract value (`Nat`); a payload slot that Python
would hold as `None` is `Option.none`.
-/

set_option autoImplicit false

/-- Opaque stand-in for a tensor payload; the messaging core never inspects it. -/
abbrev Payload := Nat

/-- Modelled from the spec: the `NetworkData` message record
(`ikkuna/export/messages.py` is part of the repository but is not among the
given source files; the field set is taken from §3 of the spec and from the
keyword arguments of `Exporter.publish`).  `payload` is `none` when the Python
object would carry `None`. -/
structure Message where
  seq : Nat
  step : Nat
  epoch : Nat
  kind : String
  module : String
  tag : Option String
  payload : Option Payload
  deriving Repr, DecidableEq

/-- The exceptions the embedded code can raise.  `keyError` stands for a Python
`KeyError` on a dictionary read; all other constructors stand for the
`ValueError`s raised explicitly in `subscriber.py`. -/
inductive PyError where
  | stepMismatch (msgStep : Nat) (bundleStep : Option Nat)
  | epochMismatch (msgEpoch : Nat) (bundleEpoch : Option Nat)
  | moduleMismatch (got : String) (expected : String)
  | duplicateKind (kind : String)
  | keyError (key : String)
  | incompleteBundle (module : String)
  deriving Repr, DecidableEq

section AssocHelpers

variable {α : Type} {β : Type} [BEq α] [LawfulBEq α]

/-- Assignment to an existing key of a Python dict: the entry keeps its
position, its value is replaced.  (Only used where the key is known present.) -/
def dictSet (l : List (α × β)) (k : α) (v : β) : List (α × β) :=
  l.map (fun p => if p.1 == k then (k, v) else p)

end AssocHelpers

/-- First-occurrence deduplication, matching the key order of a Python dict
comprehension over a list with possibly repeated elements. -/
def dedupFirst : List String → List String
  | [] => []
  | k :: ks => k :: (dedupFirst ks).filter (fun k' => k' ≠ k)

/-- The dict `{kind: None for kind in kinds}` from `ModuleData.__init__`. -/
def dictOfKeys (kinds : List String) : List (String × Option Payload) :=
  (dedupFirst kinds).map (fun k => (k, none))

/-- `ModuleData` from subscriber.py: a bundle of artifacts for one module at
one point during training.  The global creation counter `ModuleData.step`
(stored into the unused-by-the-logic `_seq` attribute) is omitted: no modelled
operation reads it. -/
structure ModuleData where
  _module : String
  _expected_kinds : List String
  _data : List (String × Option Payload)
  _step : Option Nat
  _epoch : Option Nat
  deriving Repr, DecidableEq

/-- `ModuleData.__init__(module, kinds)` for a list argument. -/
def ModuleData.init (module : String) (kinds : List String) : ModuleData :=
  { _module := module
    _expected_kinds := kinds
    _data := dictOfKeys kinds
    _step := none
    _epoch := none }

/-- Python iteration over a string yields its characters as 1-character
strings; used where `ModuleData.__init__` is (mistakenly) handed a single kind
string instead of a list. -/
def pyStrIter (s : String) : List String :=
  s.data.map (fun c => String.mk [c])

/-- `ModuleData.complete`: every expected kind has a non-`None` value. -/
def ModuleData.complete (d : ModuleData) : Bool :=
  d._data.all (fun p => p.2.isSome)

/-- Python truthiness test `not x` for an optional integer: `None` and `0` are
both falsy.  This is exactly the test `if not self._step:` in
`ModuleData._check_step` (and the analogous `_check_epoch`). -/
def pyFalsy : Option Nat → Bool
  | none => true
  | some n => n == 0

/-- `ModuleData._check_step`: set the step if it is falsy, then compare. -/
def ModuleData.checkStep (d : ModuleData) (step : Nat) : Except PyError ModuleData :=
  let d' := if pyFalsy d._step then { d with _step := some step } else d
  if some step ≠ d'._step then .error (.stepMismatch step d'._step) else .ok d'

/-- `ModuleData._check_epoch`: set the epoch if it is falsy, then compare. -/
def ModuleData.checkEpoch (d : ModuleData) (epoch : Nat) : Except PyError ModuleData :=
  let d' := if pyFalsy d._epoch then { d with _epoch := some epoch } else d
  if some epoch ≠ d'._epoch then .error (.epochMismatch epoch d'._epoch) else .ok d'

/-- `ModuleData.add_message`: check step, epoch and module, then store the
payload under `message.kind`; reading `self._data[message.kind]` raises
`KeyError` when the kind is not a key of the dict. -/
def ModuleData.add_message (d : ModuleData) (m : Message) : Except PyError ModuleData :=
  match d.checkStep m.step with
  | .error e => .error e
  | .ok d =>
    match d.checkEpoch m.epoch with
    | .error e => .error e
    | .ok d =>
      if d._module ≠ m.module then
        .error (.moduleMismatch m.module d._module)
      else
        match List.lookup m.kind d._data with
        | none => .error (.keyError m.kind)
        | some (some _) => .error (.duplicateKind m.kind)
        | some none => .ok { d with _data := dictSet d._data m.kind m.payload }

/-- The base `Subscription`: a tag and the kinds of interest.  The associated
`Subscriber` is modelled by returning the list of `ModuleData` bundles that
`self._subscriber(data)` would be called with. -/
structure Subscription where
  _tag : Option String
  _kinds : List String
  deriving Repr, DecidableEq

/-- `Subscription._new_message`: the base dispatch hook.  Note that the Python
code passes `network_data.kind` (a string) where `ModuleData.__init__` iterates
over `kinds`, so the fresh dict is keyed by the characters of the kind. -/
def Subscription.new_message (_sub : Subscription) (m : Message) :
    Except PyError (List ModuleData) :=
  match (ModuleData.init m.module (pyStrIter m.kind)).add_message m with
  | .error e => .error e
  | .ok d => .ok [d]

/-- `Subscription.__call__`: drop messages of other kinds, drop messages whose
tag fails the filter, otherwise dispatch via `_new_message`. -/
def Subscription.call (sub : Subscription) (m : Message) :
    Except PyError (List ModuleData) :=
  if !(sub._kinds.contains m.kind) then .ok []
  else if sub._tag = none ∨ sub._tag = m.tag then sub.new_message m
  else .ok []

/-- The mutable state of a `SynchronizedSubscription`: the seq of the current
round and the key-to-bundle dict `_modules`.  (The `_step` attribute set in
`__init__` is never read and is omitted.) -/
structure SyncState where
  _current_seq : Option Nat
  _modules : List (String × ModuleData)
  deriving Repr, DecidableEq

/-- `SynchronizedSubscription._new_round`: raise on the first still-incomplete
bundle, else clear the buffer and record the new seq. -/
def SyncState.new_round (st : SyncState) (seq : Nat) : Except PyError SyncState :=
  match st._modules.find? (fun p => !p.2.complete) with
  | some p => .error (.incompleteBundle p.2._module)
  | none => .ok ⟨some seq, []⟩

/-- The lookup-or-create-then-add part of `SynchronizedSubscription._new_message`:
`if module not in self._modules: self._modules[module] = ModuleData(module, self._kinds)`
followed by `self._modules[module].add_message(network_data)`. -/
def syncAdd (kinds : List String) (mods : List (String × ModuleData)) (m : Message) :
    Except PyError (List (String × ModuleData)) :=
  match List.lookup m.module mods with
  | some d =>
    match d.add_message m with
    | .error e => .error e
    | .ok d' => .ok (dictSet mods m.module d')
  | none =>
    match (ModuleData.init m.module kinds).add_message m with
    | .error e => .error e
    | .ok d' => .ok (mods ++ [(m.module, d')])

/-- `SynchronizedSubscription._new_message`: open a new round when the seq is
unset or differs, add the message to its bundle, then deliver and evict every
bundle that has become complete.  The second component of the result is the
list of bundles passed to `self._subscriber(data)`, in dict iteration order. -/
def syncNewMessage (kinds : List String) (st : SyncState) (m : Message) :
    Except PyError (SyncState × List ModuleData) :=
  match (if st._current_seq = none ∨ st._current_seq ≠ some m.seq
         then st.new_round m.seq else .ok st) with
  | .error e => .error e
  | .ok st =>
    match syncAdd kinds st._modules m with
    | .error e => .error e
    | .ok mods =>
      .ok (⟨st._current_seq, mods.filter (fun p => !p.2.complete)⟩,
           (mods.filter (fun p => p.2.complete)).map Prod.snd)

/-- Feed a list of messages to `SynchronizedSubscription._new_message` one by
one, collecting every bundle delivered to the subscriber. -/
def syncRun (kinds : List String) : SyncState → List Message →
    Except PyError (SyncState × List ModuleData)
  | st, [] => .ok (st, [])
  | st, m :: ms =>
    match syncNewMessage kinds st m with
    | .error e => .error e
    | .ok (st', del) =>
      match syncRun kinds st' ms with
      | .error e => .error e
      | .ok (st'', dels) => .ok (st'', del ++ dels)

/-- The inherited `Subscription.__call__` as executed by a
`SynchronizedSubscription` (same tag and kind filter, synchronized dispatch). -/
def syncCall (kinds : List String) (tag : Option String) (st : SyncState) (m : Message) :
    Except PyError (SyncState × List ModuleData) :=
  if !(kinds.contains m.kind) then .ok (st, [])
  else if tag = none ∨ tag = m.tag then syncNewMessage kinds st m
  else .ok (st, [])

/-- The message constructed inside the loop of `Exporter.publish`:
`NetworkData(seq=self._global_step, tag=None, kind=kind, module=label,
step=self._train_step, epoch=self._epoch, payload=data)`. -/
def Exporter.publishMessage (global_step train_step epoch : Nat)
    (label kind : String) (payload : Option Payload) : Message :=
  { seq := global_step
    step := train_step
    epoch := epoch
    kind := kind
    module := label
    tag := none
    payload := payload }

/-- The kinds of the messages a given key (module name) received, in order. -/
def kindsReceived (K : String) (ms : List Message) : List String :=
  (ms.filter (fun m => m.module == K)).map Message.kind

/-- Whether the messages received for key `K` cover every expected kind. -/
def coversB (kinds : List String) (K : String) (ms : List Message) : Bool :=
  kinds.all (fun k => (kindsReceived K ms).contains k)

/-- The (key, kind) pairs of a message list; the spec requires each pair to
occur at most once within one round. -/
def msgPairs (ms : List Message) : List (String × String) :=
  ms.map (fun m => (m.module, m.kind))

/-- Invariant tying the buffer of a `SynchronizedSubscription` mid-round to the
messages processed so far in that round: keys are unique; every buffered
bundle belongs to its key, is keyed by the expected kinds, marks exactly the
kinds received for its key, and is still incomplete; keys without a buffered
bundle either received nothing yet this round or were completed and evicted. -/
def RoundInv (kinds : List String) (past : List Message)
    (mods : List (String × ModuleData)) : Prop :=
  (mods.map Prod.fst).Nodup ∧
  (∀ K d, List.lookup K mods = some d →
    d._module = K ∧
    d._data.map Prod.fst = dedupFirst kinds ∧
    (∀ k v, List.lookup k d._data = some v →
      (v.isSome = true ↔ k ∈ kindsReceived K past)) ∧
    d.complete = false) ∧
  (∀ K, List.lookup K mods = none →
    (kindsReceived K past = [] ∨ coversB kinds K past = true))

/-- Per-(key, kind) subsample counter state. -/
abbrev SubsampleState := List ((String × String) × Nat)

/-- Modelled from the spec: the occurrence counter read of the subsampling
stage of `Subscription.handle_message` (spec §4.2 step 3).  The `subsample`
constructor argument is visible in the in-repo callers (`RatioSubscriber` and
`VarianceSubscriber` pass it on to `SynchronizedSubscription`), but the
`Subscription` class in the given `subscriber.py` predates the feature, so the
counter logic is modelled from the words of the spec: keep a per-(key, kind)
occurrence counter, forward only when `counter % subsample_factor == 0`, and
increment the counter on every matching message. -/
def counterOf (st : SubsampleState) (key : String × String) : Nat :=
  (List.lookup key st).getD 0

/-- Modelled from the spec: write back a subsample counter (a fresh key is
appended, an existing key is updated in place, as in a Python defaultdict). -/
def setCounter (st : SubsampleState) (key : String × String) (c : Nat) :
    SubsampleState :=
  if (List.lookup key st).isSome then dictSet st key c else st ++ [(key, c)]

/-- Modelled from the spec: the subsampling stage over a stream of messages
that already passed the tag and kind filters; per message, read the counter of
its (key, kind), forward the message exactly when `counter % N == 0`, and
increment the counter in every case.  Returns the final counters and the
forwarded messages in order. -/
def subsampleRun (N : Nat) : SubsampleState → List Message →
    SubsampleState × List Message
  | st, [] => (st, [])
  | st, m :: ms =>
    let c := counterOf st (m.module, m.kind)
    let rest := subsampleRun N (setCounter st (m.module, m.kind) (c + 1)) ms
    (rest.1, (if c % N = 0 then [m] else []) ++ rest.2)

/-- Declarative reading of the subsampling property in the claim: starting
from occurrence index `c`, keep exactly the elements whose 0-based occurrence
index is a multiple of `N`. -/
def everyNthFrom (N : Nat) : Nat → List Message → List Message
  | _, [] => []
  | c, m :: ms =>
    if c % N = 0 then m :: everyNthFrom N (c + 1) ms else everyNthFrom N (c + 1) ms

/-- Messages for one (key, kind) stream. -/
def matchesKK (K k : String) (m : Message) : Bool :=
  m.module == K && m.kind == k

/- Concrete inputs used by counterexamples and witnesses. -/

def c2m1 : Message := ⟨1, 0, 1, "a", "M", none, some 1⟩
def c2m2 : Message := ⟨1, 5, 1, "b", "M", none, some 2⟩
def c3m1 : Message := ⟨5, 1, 0, "a", "L1", none, some 10⟩
def c3m2 : Message := ⟨3, 2, 0, "a", "L1", none, some 20⟩
def c7m : Message := ⟨0, 1, 0, "ab", "L1", none, some 3⟩
def c8m : Message := ⟨0, 1, 0, "a", "L1", none, some 3⟩
def c1m1 : Message := ⟨1, 1, 0, "act", "L1", none, some 4⟩
def c1m2 : Message := ⟨1, 1, 0, "grad", "L2", none, some 5⟩
def c1m3 : Message := ⟨1, 1, 0, "grad", "L1", none, some 6⟩

/-! ### Characterizations of the bundle operations -/

theorem checkStep_ok_iff (d d₁ : ModuleData) (s : Nat) :
    d.checkStep s = .ok d₁ ↔
      (pyFalsy d._step = true ∨ d._step = some s) ∧ d₁ = { d with _step := some s } := by
  obtain ⟨dm, dk, dd, ds, de⟩ := d
  rcases ds with _ | n
  · simp [ModuleData.checkStep, pyFalsy]
    exact eq_comm
  · by_cases hn : n = 0
    · subst hn
      simp [ModuleData.checkStep, pyFalsy]
      exact eq_comm
    · by_cases hsn : s = n
      · subst hsn
        simp [ModuleData.checkStep, pyFalsy, hn]
        exact eq_comm
      · simp [ModuleData.checkStep, pyFalsy, hn, hsn, Ne.symm hsn]

theorem checkEpoch_ok_iff (d d₁ : ModuleData) (e : Nat) :
    d.checkEpoch e = .ok d₁ ↔
      (pyFalsy d._epoch = true ∨ d._epoch = some e) ∧ d₁ = { d with _epoch := some e } := by
  obtain ⟨dm, dk, dd, ds, de⟩ := d
  rcases de with _ | n
  · simp [ModuleData.checkEpoch, pyFalsy]
    exact eq_comm
  · by_cases hn : n = 0
    · subst hn
      simp [ModuleData.checkEpoch, pyFalsy]
      exact eq_comm
    · by_cases hen : e = n
      · subst hen
        simp [ModuleData.checkEpoch, pyFalsy, hn]
        exact eq_comm
      · simp [ModuleData.checkEpoch, pyFalsy, hn, hen, Ne.symm hen]

theorem add_message_ok_iff (d d' : ModuleData) (m : Message) :
    d.add_message m = .ok d' ↔
      (pyFalsy d._step = true ∨ d._step = some m.step) ∧
      (pyFalsy d._epoch = true ∨ d._epoch = some m.epoch) ∧
      d._module = m.module ∧
      List.lookup m.kind d._data = some none ∧
      d' = { d with
             _step := some m.step
             _epoch := some m.epoch
             _data := dictSet d._data m.kind m.payload } := by
  obtain ⟨dm, dk, dd, ds, de⟩ := d
  constructor
  · intro h
    unfold ModuleData.add_message at h
    split at h
    · exact absurd h (by simp)
    · next d₁ hs =>
      obtain ⟨hstep, hd₁⟩ := (checkStep_ok_iff _ _ _).mp hs
      subst hd₁
      split at h
      · exact absurd h (by simp)
      · next d₂ he =>
        obtain ⟨hepoch, hd₂⟩ := (checkEpoch_ok_iff _ _ _).mp he
        subst hd₂
        split at h
        · exact absurd h (by simp)
        · next hmod =>
          have hmod' : dm = m.module := not_ne_iff.mp hmod
          split at h
          · exact absurd h (by simp)
          · exact absurd h (by simp)
          · next hl =>
            injection h with h
            subst h
            exact ⟨hstep, hepoch, hmod', hl, rfl⟩
  · rintro ⟨hstep, hepoch, hmod, hlook, hd'⟩
    have hmod' : dm = m.module := hmod
    subst hmod'
    have h1 : ModuleData.checkStep ⟨m.module, dk, dd, ds, de⟩ m.step
        = .ok ⟨m.module, dk, dd, some m.step, de⟩ :=
      (checkStep_ok_iff _ _ _).mpr ⟨hstep, rfl⟩
    have h2 : ModuleData.checkEpoch ⟨m.module, dk, dd, some m.step, de⟩ m.epoch
        = .ok ⟨m.module, dk, dd, some m.step, some m.epoch⟩ :=
      (checkEpoch_ok_iff _ _ _).mpr ⟨hepoch, rfl⟩
    unfold ModuleData.add_message
    rw [h1]
    simp only []
    rw [h2]
    simp [hlook, hd']

/-! ### Claim theorems (part 1) -/

/-- C2: counterexample evaluation.  A bundle whose established step is `0` does
not reject a message with step `5`: the test `if not self._step:` in
`ModuleData._check_step` treats an established step of `0` as unset, so the
mismatching message is silently merged and the identity rewritten to step `5`
(the bug applies to `_check_epoch` and an epoch of `0` in the same way). -/
theorem step_zero_identity_not_enforced :
    (ModuleData.init "M" ["a", "b"]).add_message c2m1 =
      .ok ⟨"M", ["a", "b"], [("a", some 1), ("b", none)], some 0, some 1⟩ ∧
    ModuleData.add_message ⟨"M", ["a", "b"], [("a", some 1), ("b", none)], some 0, some 1⟩ c2m2 =
      .ok ⟨"M", ["a", "b"], [("a", some 1), ("b", some 2)], some 5, some 1⟩ := by
  constructor <;> rfl

/-- C3 counterexample: feeding seq `5` and then seq `3` to a fresh
`SynchronizedSubscription` with a single expected kind silently succeeds: the
first round completes and is delivered, so the round close for the regressing
seq `3` finds an empty buffer, raises nothing, and delivers the second bundle
as well. -/
theorem seq_regression_silent_success :
    syncRun ["a"] ⟨none, []⟩ [c3m1, c3m2] =
      .ok (⟨some 3, []⟩,
        [⟨"L1", ["a"], [("a", some 10)], some 1, some 0⟩,
         ⟨"L1", ["a"], [("a", some 20)], some 2, some 0⟩]) := by
  rfl

/-- C5: adding a message to a bundle that already holds a non-absent value for
the kind of the message raises the duplicate-kind `ValueError`; since the
raise happens before the assignment, the stored payload is not overwritten. -/
theorem duplicate_kind_rejected (d : ModuleData) (m : Message) (v : Payload)
    (hstep : pyFalsy d._step = true ∨ d._step = some m.step)
    (hepoch : pyFalsy d._epoch = true ∨ d._epoch = some m.epoch)
    (hmod : d._module = m.module)
    (hdup : List.lookup m.kind d._data = some (some v)) :
    d.add_message m = .error (.duplicateKind m.kind) := by
  obtain ⟨dm, dk, dd, ds, de⟩ := d
  have hmod' : dm = m.module := hmod
  subst hmod'
  have h1 : ModuleData.checkStep ⟨m.module, dk, dd, ds, de⟩ m.step
      = .ok ⟨m.module, dk, dd, some m.step, de⟩ :=
    (checkStep_ok_iff _ _ _).mpr ⟨hstep, rfl⟩
  have h2 : ModuleData.checkEpoch ⟨m.module, dk, dd, some m.step, de⟩ m.epoch
      = .ok ⟨m.module, dk, dd, some m.step, some m.epoch⟩ :=
    (checkEpoch_ok_iff _ _ _).mpr ⟨hepoch, rfl⟩
  unfold ModuleData.add_message
  rw [h1]
  simp only []
  rw [h2]
  simp [hdup]

/-- C5 witness: a bundle holding payload `1` for kind `"a"` rejects a second
message of kind `"a"` with the duplicate-kind error. -/
theorem duplicate_kind_rejected_witness :
    ModuleData.add_message ⟨"M", ["a", "b"], [("a", some 1), ("b", none)], some 2, some 3⟩
      ⟨0, 2, 3, "a", "M", none, some 9⟩ = .error (.duplicateKind "a") :=
  duplicate_kind_rejected _ _ 1 (Or.inr rfl) (Or.inr rfl) rfl rfl

/-- C7: counterexample evaluation.  The base dispatch
`Subscription._new_message` constructs `ModuleData(network_data.module,
network_data.kind)`, handing the kind string where a list of kinds is
expected; the dict comprehension iterates over the characters of the string,
so for the accepted two-character kind `"ab"` the subsequent
`self._data[message.kind]` read raises `KeyError` instead of delivering a
complete one-kind bundle. -/
theorem base_dispatch_key_error :
    Subscription.call ⟨none, ["ab"]⟩ c7m = .error (.keyError "ab") := by
  rfl

/-- C8 counterexample: a message whose tag is `None` and whose kind is accepted
is dropped (silently, with no delivery) by a subscription constructed with tag
`"t"`, while the same message is forwarded by an untagged subscription: the
filter `self._tag is None or self._tag == network_data.tag` treats `None` as a
wildcard only on the side of the subscription. -/
theorem none_tag_dropped_by_tagged_subscription :
    Subscription.call ⟨some "t", ["a"]⟩ c8m = .ok [] ∧
    Subscription.call ⟨none, ["a"]⟩ c8m =
      .ok [⟨"L1", ["a"], [("a", some 3)], some 1, some 0⟩] := by
  constructor <;> rfl

/-- C8 amended: the tag filter is silent, kind filtering applies first, and a
subscription tag of `None` is a wildcard; but a subscription whose tag is set
forwards only messages carrying exactly the same tag — a message tag of `None`
counts as differing and is dropped. -/
theorem tag_filter_characterization (sub : Subscription) (m : Message)
    (hk : sub._kinds.contains m.kind = true) :
    ((sub._tag = none ∨ sub._tag = m.tag) → sub.call m = sub.new_message m) ∧
    (∀ t : String, sub._tag = some t → m.tag ≠ some t → sub.call m = .ok []) := by
  have hk' : m.kind ∈ sub._kinds := by simpa using hk
  unfold Subscription.call
  constructor
  · intro h
    simp [hk, hk', h]
  · intro t ht hm
    have hno : ¬ (sub._tag = none ∨ sub._tag = m.tag) := by
      rintro (h1 | h2)
      · rw [ht] at h1; cases h1
      · rw [ht] at h2; exact hm h2.symm
    simp [hk, hk', hno]

/-- C8 amended, witness: a tagged subscription drops an accepted message whose
tag is `None`. -/
theorem tag_filter_characterization_witness :
    Subscription.call ⟨some "t", ["g"]⟩ ⟨0, 1, 0, "g", "L", none, some 2⟩ = .ok [] :=
  (tag_filter_characterization ⟨some "t", ["g"]⟩ ⟨0, 1, 0, "g", "L", none, some 2⟩
    (by decide)).2 "t" rfl (by decide)

/-- C9: every message built by `Exporter.publish` carries `tag=None`, and a
subscription constructed with a non-`None` tag never forwards such a message
to its subscriber — neither through the base `__call__` nor through a
`SynchronizedSubscription` (whose state is left untouched). -/
theorem tagged_subscription_never_forwards (gs ts ep : Nat) (lbl kind : String)
    (pl : Option Payload) (t : String) (kinds : List String) (st : SyncState) :
    (Exporter.publishMessage gs ts ep lbl kind pl).tag = none ∧
    Subscription.call ⟨some t, kinds⟩ (Exporter.publishMessage gs ts ep lbl kind pl) = .ok [] ∧
    syncCall kinds (some t) st (Exporter.publishMessage gs ts ep lbl kind pl) = .ok (st, []) := by
  refine ⟨rfl, ?_, ?_⟩
  · unfold Subscription.call
    split
    · rfl
    · simp [Exporter.publishMessage]
  · unfold syncCall
    split
    · rfl
    · simp [Exporter.publishMessage]

/-! ### Association list toolkit -/

theorem lookup_cons_eq {α β : Type} [BEq α] [LawfulBEq α] [DecidableEq α] (k a : α) (b : β) (xs : List (α × β)) :
    List.lookup k ((a, b) :: xs) = if k = a then some b else List.lookup k xs := by
  rw [List.lookup_cons]
  by_cases h : k = a
  · subst h
    simp
  · have hb : (k == a) = false := by simpa using h
    rw [hb]
    simp [h]

theorem dictSet_cons {α β : Type} [BEq α] [LawfulBEq α] [DecidableEq α] (a : α) (b : β) (xs : List (α × β))
    (k : α) (v : β) :
    dictSet ((a, b) :: xs) k v = (if a = k then (k, v) else (a, b)) :: dictSet xs k v := by
  unfold dictSet
  simp only [List.map_cons]
  by_cases h : a = k
  · simp [h]
  · have hb : (a == k) = false := by simpa using h
    simp [hb, h]

theorem lookup_mem {α β : Type} [BEq α] [LawfulBEq α] [DecidableEq α] (l : List (α × β)) (k : α) (v : β)
    (h : List.lookup k l = some v) : (k, v) ∈ l := by
  induction l with
  | nil => rw [List.lookup_nil] at h; cases h
  | cons x xs ih =>
    obtain ⟨a, b⟩ := x
    rw [lookup_cons_eq] at h
    by_cases hk : k = a
    · subst hk
      rw [if_pos rfl] at h
      injection h with h
      subst h
      exact List.mem_cons_self _ _
    · rw [if_neg hk] at h
      exact List.mem_cons_of_mem _ (ih h)

theorem lookup_dictSet {α β : Type} [BEq α] [LawfulBEq α] [DecidableEq α] (l : List (α × β)) (k' : α) (v : β) (k : α) :
    List.lookup k (dictSet l k' v)
      = if k = k' then (List.lookup k' l).map (fun _ => v) else List.lookup k l := by
  induction l with
  | nil =>
    show List.lookup k ([] : List (α × β)) = _
    rw [List.lookup_nil, List.lookup_nil]
    simp
  | cons x xs ih =>
    obtain ⟨a, b⟩ := x
    rw [dictSet_cons]
    by_cases hak : a = k'
    · subst hak
      rw [if_pos rfl]
      simp only [lookup_cons_eq]
      by_cases hka : k = a
      · subst hka
        simp [ih]
      · simp [hka, ih]
    · rw [if_neg hak]
      simp only [lookup_cons_eq]
      by_cases hka : k = a
      · subst hka
        simp [hak]
      · simp [hka, ih, Ne.symm hak]

theorem map_fst_dictSet {α β : Type} [BEq α] [LawfulBEq α] [DecidableEq α] (l : List (α × β)) (k : α) (v : β) :
    (dictSet l k v).map Prod.fst = l.map Prod.fst := by
  induction l with
  | nil => simp [dictSet]
  | cons x xs ih =>
    obtain ⟨a, b⟩ := x
    rw [dictSet_cons]
    by_cases hak : a = k
    · subst hak
      simp [ih]
    · simp [hak, ih]

theorem lookup_eq_none_iff {α β : Type} [BEq α] [LawfulBEq α] [DecidableEq α] (l : List (α × β)) (k : α) :
    List.lookup k l = none ↔ k ∉ l.map Prod.fst := by
  induction l with
  | nil => simp
  | cons x xs ih =>
    obtain ⟨a, b⟩ := x
    rw [lookup_cons_eq]
    by_cases hka : k = a
    · subst hka
      simp
    · simp [hka, ih]

theorem lookup_map_const {β : Type} (l : List String) (c : β) (k : String) :
    List.lookup k (l.map (fun x => (x, c))) = if k ∈ l then some c else none := by
  induction l with
  | nil => simp
  | cons x xs ih =>
    simp only [List.map_cons]
    rw [lookup_cons_eq]
    by_cases hx : k = x
    · subst hx
      simp
    · simp [hx, ih]

theorem mem_dedupFirst (k : String) (l : List String) : k ∈ dedupFirst l ↔ k ∈ l := by
  induction l with
  | nil => simp [dedupFirst]
  | cons x xs ih =>
    simp only [dedupFirst, List.mem_cons, List.mem_filter]
    constructor
    · rintro (h | ⟨h, -⟩)
      · exact Or.inl h
      · exact Or.inr (ih.mp h)
    · rintro (h | h)
      · exact Or.inl h
      · by_cases hx : k = x
        · exact Or.inl hx
        · exact Or.inr ⟨ih.mpr h, by simpa using hx⟩

theorem nodup_dedupFirst (l : List String) : (dedupFirst l).Nodup := by
  induction l with
  | nil => simp [dedupFirst]
  | cons x xs ih =>
    simp only [dedupFirst, List.nodup_cons]
    constructor
    · intro hmem
      exact absurd (List.mem_filter.mp hmem).2 (by simp)
    · exact ih.filter _

theorem lookup_dictOfKeys (kinds : List String) (k : String) :
    List.lookup k (dictOfKeys kinds) = if k ∈ kinds then some none else none := by
  unfold dictOfKeys
  rw [lookup_map_const]
  simp [mem_dedupFirst]

theorem map_fst_dictOfKeys (kinds : List String) :
    (dictOfKeys kinds).map Prod.fst = dedupFirst kinds := by
  unfold dictOfKeys
  rw [List.map_map]
  simp [Function.comp_def]

theorem complete_false_of_lookup_none (d : ModuleData) (k : String)
    (h : List.lookup k d._data = some none) : d.complete = false := by
  by_contra hc
  rw [Bool.not_eq_false] at hc
  unfold ModuleData.complete at hc
  have hmem := lookup_mem _ _ _ h
  have := List.all_eq_true.mp hc _ hmem
  simp at this

/-! ### Claim theorems (part 2) -/

/-- C4: when a message whose seq differs from the seq of the currently tracked
round arrives, `_new_round` runs first: if some buffered bundle is still
incomplete, the fatal incomplete-round `ValueError` propagates out of
`_new_message` (the partial bundle is not silently discarded); only when every
buffered bundle is complete does the round close succeed, opening a new round
with the new seq and an empty buffer. -/
theorem incomplete_round_close_raises (kinds : List String) (st : SyncState)
    (m : Message) (c : Nat) (hc : st._current_seq = some c) (hne : c ≠ m.seq) :
    ((∃ p ∈ st._modules, p.2.complete = false) →
      ∃ name, syncNewMessage kinds st m = .error (.incompleteBundle name)) ∧
    ((∀ p ∈ st._modules, p.2.complete = true) →
      st.new_round m.seq = .ok ⟨some m.seq, []⟩) := by
  constructor
  · rintro ⟨p, hp, hpc⟩
    have hfind : (st._modules.find? (fun p => !p.2.complete)).isSome := by
      rw [List.find?_isSome]
      exact ⟨p, hp, by simp [hpc]⟩
    obtain ⟨q, hq⟩ := Option.isSome_iff_exists.mp hfind
    refine ⟨q.2._module, ?_⟩
    have hnr : st.new_round m.seq = .error (.incompleteBundle q.2._module) := by
      unfold SyncState.new_round
      rw [hq]
    have hguard : (st._current_seq = none ∨ st._current_seq ≠ some m.seq) := by
      right
      rw [hc]
      simp [hne]
    unfold syncNewMessage
    rw [if_pos hguard, hnr]
  · intro hall
    have hfind : st._modules.find? (fun p => !p.2.complete) = none := by
      rw [List.find?_eq_none]
      intro p hp
      simp [hall p hp]
    unfold SyncState.new_round
    rw [hfind]

/-- C4 witness: a buffered incomplete bundle makes the round close for a new
seq raise, and with an empty buffer the round close succeeds. -/
theorem incomplete_round_close_raises_witness :
    (∃ name,
      syncNewMessage ["a", "b"]
        ⟨some 1, [("L1", ⟨"L1", ["a", "b"], [("a", some 1), ("b", none)], some 0, some 0⟩)]⟩
        ⟨2, 0, 0, "a", "L1", none, some 7⟩ = .error (.incompleteBundle name)) ∧
    SyncState.new_round ⟨some 1, []⟩ 2 = .ok ⟨some 2, []⟩ := by
  constructor
  · exact (incomplete_round_close_raises ["a", "b"] _ _ 1 rfl (by decide)).1
      ⟨("L1", ⟨"L1", ["a", "b"], [("a", some 1), ("b", none)], some 0, some 0⟩),
        by simp, by decide⟩
  · exact (incomplete_round_close_raises ["a", "b"] ⟨some 1, []⟩
      ⟨2, 0, 0, "a", "L1", none, some 7⟩ 1 rfl (by decide)).2 (by simp)

/-- C3 amended: the code never compares seq values for monotonicity.  A seq
regression is rejected only indirectly, when the round being closed still
holds an incomplete bundle; if the buffer of the current round is empty (all
bundles were completed and delivered), a message with a smaller seq silently
opens a new round with the regressed seq and is processed normally. -/
theorem seq_regression_not_checked (kinds : List String) (c : Nat) (m : Message)
    (hreg : m.seq < c) (hkind : m.kind ∈ kinds) :
    ∃ st' del, syncNewMessage kinds ⟨some c, []⟩ m = .ok (st', del) ∧
      st'._current_seq = some m.seq := by
  have hc : c ≠ m.seq := ne_of_gt hreg
  have hadd : (ModuleData.init m.module kinds).add_message m
      = .ok { ModuleData.init m.module kinds with
              _step := some m.step
              _epoch := some m.epoch
              _data := dictSet (dictOfKeys kinds) m.kind m.payload } := by
    rw [add_message_ok_iff]
    refine ⟨Or.inl rfl, Or.inl rfl, rfl, ?_, rfl⟩
    show List.lookup m.kind (dictOfKeys kinds) = some none
    rw [lookup_dictOfKeys]
    simp [hkind]
  have hsa : syncAdd kinds [] m
      = .ok [(m.module, { ModuleData.init m.module kinds with
              _step := some m.step
              _epoch := some m.epoch
              _data := dictSet (dictOfKeys kinds) m.kind m.payload })] := by
    unfold syncAdd
    simp [hadd, List.lookup]
  unfold syncNewMessage
  rw [if_pos (Or.inr (by simp [hc]))]
  rw [show SyncState.new_round ⟨some c, []⟩ m.seq = .ok ⟨some m.seq, []⟩ from rfl]
  simp only []
  rw [hsa]
  simp only []
  exact ⟨_, _, rfl, rfl⟩

/-- C3 amended, witness: after a completed round with seq `5`, the regressing
seq `3` message is accepted and opens round `3`. -/
theorem seq_regression_not_checked_witness :
    ∃ st' del, syncNewMessage ["a"] ⟨some 5, []⟩ c3m2 = .ok (st', del) ∧
      st'._current_seq = some 3 :=
  seq_regression_not_checked ["a"] 5 c3m2 (by decide) (by decide)

/-- C10: adding a message whose payload is `None` succeeds and stores `None`,
but `complete()` still counts the kind as not received, and a subsequent
message of the same kind for the same bundle does not raise the duplicate-kind
error — it stores its payload instead (the duplicate check tests
`is not None`, not key presence). -/
theorem none_payload_not_duplicate (d d' : ModuleData) (m1 m2 : Message) (p : Payload)
    (hp1 : m1.payload = none)
    (hadd : d.add_message m1 = .ok d')
    (hkind : m2.kind = m1.kind) (hstep : m2.step = m1.step)
    (hepoch : m2.epoch = m1.epoch) (hmod : m2.module = m1.module)
    (hp2 : m2.payload = some p) :
    d'.complete = false ∧
    ∃ d'', d'.add_message m2 = .ok d'' ∧
      List.lookup m2.kind d''._data = some (some p) := by
  obtain ⟨h1, h2, h3, h4, h5⟩ := (add_message_ok_iff _ _ _).mp hadd
  have hlook' : List.lookup m2.kind d'._data = some none := by
    rw [h5]
    show List.lookup m2.kind (dictSet d._data m1.kind m1.payload) = some none
    rw [lookup_dictSet]
    simp [hkind, h4, hp1]
  constructor
  · exact complete_false_of_lookup_none d' m2.kind hlook'
  · have hadd2 : d'.add_message m2 = .ok { d' with
        _step := some m2.step
        _epoch := some m2.epoch
        _data := dictSet d'._data m2.kind m2.payload } := by
      rw [add_message_ok_iff]
      refine ⟨?_, ?_, ?_, hlook', rfl⟩
      · rw [h5]
        show pyFalsy (some m1.step) = true ∨ some m1.step = some m2.step
        rw [hstep]
        exact Or.inr rfl
      · rw [h5]
        show pyFalsy (some m1.epoch) = true ∨ some m1.epoch = some m2.epoch
        rw [hepoch]
        exact Or.inr rfl
      · rw [h5]
        show d._module = m2.module
        rw [hmod, ← h3]
    refine ⟨_, hadd2, ?_⟩
    show List.lookup m2.kind (dictSet d'._data m2.kind m2.payload) = some (some p)
    rw [lookup_dictSet]
    simp [hlook', hp2]

/-- C10 witness: a `None` payload for kind `"a"` of a fresh two-kind bundle
leaves the bundle incomplete and a second `"a"` message stores payload `9`. -/
theorem none_payload_not_duplicate_witness :
    ModuleData.complete ⟨"M", ["a", "b"], [("a", none), ("b", none)], some 1, some 2⟩ = false ∧
    ∃ d'', ModuleData.add_message
        ⟨"M", ["a", "b"], [("a", none), ("b", none)], some 1, some 2⟩
        ⟨0, 1, 2, "a", "M", none, some 9⟩ = .ok d'' ∧
      List.lookup "a" d''._data = some (some 9) := by
  have h := none_payload_not_duplicate
    (ModuleData.init "M" ["a", "b"])
    ⟨"M", ["a", "b"], [("a", none), ("b", none)], some 1, some 2⟩
    ⟨0, 1, 2, "a", "M", none, none⟩ ⟨0, 1, 2, "a", "M", none, some 9⟩ 9
    rfl rfl rfl rfl rfl rfl rfl
  exact h

/-! ### Subsampling (claim C6) -/

theorem lookup_append {α β : Type} [BEq α] [LawfulBEq α] [DecidableEq α]
    (l₁ l₂ : List (α × β)) (k : α) :
    List.lookup k (l₁ ++ l₂)
      = match List.lookup k l₁ with
        | some v => some v
        | none => List.lookup k l₂ := by
  induction l₁ with
  | nil => simp
  | cons x xs ih =>
    obtain ⟨a, b⟩ := x
    rw [List.cons_append, lookup_cons_eq, lookup_cons_eq]
    by_cases hka : k = a
    · simp [hka]
    · simp [hka, ih]

theorem counterOf_setCounter_self (st : SubsampleState) (key : String × String) (c : Nat) :
    counterOf (setCounter st key c) key = c := by
  unfold setCounter counterOf
  by_cases h : (List.lookup key st).isSome
  · rw [if_pos h, lookup_dictSet, if_pos rfl]
    obtain ⟨v, hv⟩ := Option.isSome_iff_exists.mp h
    rw [hv]
    rfl
  · rw [if_neg h]
    have hnone : List.lookup key st = none := by
      cases hx : List.lookup key st
      · rfl
      · rw [hx] at h
        exact absurd rfl h
    rw [lookup_append, hnone]
    simp only []
    rw [lookup_cons_eq, if_pos rfl]
    rfl

theorem counterOf_setCounter_other (st : SubsampleState) (key key' : String × String)
    (c : Nat) (h : key' ≠ key) :
    counterOf (setCounter st key c) key' = counterOf st key' := by
  unfold setCounter counterOf
  by_cases hs : (List.lookup key st).isSome
  · rw [if_pos hs, lookup_dictSet, if_neg h]
  · rw [if_neg hs, lookup_append]
    cases hx : List.lookup key' st
    · simp only []
      rw [lookup_cons_eq, if_neg h, List.lookup_nil]
    · rfl

theorem subsample_aux (N : Nat) (K k : String) (ms : List Message) :
    ∀ st : SubsampleState,
      ((subsampleRun N st ms).2.filter (matchesKK K k))
        = everyNthFrom N (counterOf st (K, k)) (ms.filter (matchesKK K k)) ∧
      counterOf (subsampleRun N st ms).1 (K, k)
        = counterOf st (K, k) + (ms.filter (matchesKK K k)).length := by
  induction ms with
  | nil =>
    intro st
    simp [subsampleRun, everyNthFrom]
  | cons m ms ih =>
    intro st
    by_cases hm : matchesKK K k m = true
    · have hmk : m.module = K ∧ m.kind = k := by
        unfold matchesKK at hm
        simpa using hm
      have hkey : (m.module, m.kind) = ((K, k) : String × String) := by
        rw [hmk.1, hmk.2]
      obtain ⟨ih1, ih2⟩ := ih (setCounter st (K, k) (counterOf st (K, k) + 1))
      have hself : counterOf (setCounter st (K, k) (counterOf st (K, k) + 1)) (K, k)
          = counterOf st (K, k) + 1 :=
        counterOf_setCounter_self st (K, k) _
      rw [hself] at ih1 ih2
      have hfc : List.filter (matchesKK K k) (m :: ms)
          = m :: List.filter (matchesKK K k) ms := by
        simp [hm]
      constructor
      · simp only [subsampleRun, hkey]
        rw [List.filter_append, ih1, hfc]
        by_cases hfwd : counterOf st (K, k) % N = 0
        · rw [if_pos hfwd, everyNthFrom, if_pos hfwd]
          simp [hm]
        · rw [if_neg hfwd, everyNthFrom, if_neg hfwd]
          simp
      · simp only [subsampleRun, hkey]
        rw [ih2, hfc]
        simp only [List.length_cons]
        omega
    · have hm' : matchesKK K k m = false := by
        cases hx : matchesKK K k m
        · rfl
        · exact absurd hx hm
      have hne : ((K, k) : String × String) ≠ (m.module, m.kind) := by
        intro heq
        have h1 : K = m.module := congrArg Prod.fst heq
        have h2 : k = m.kind := congrArg Prod.snd heq
        unfold matchesKK at hm'
        rw [← h1, ← h2] at hm'
        simp at hm'
      obtain ⟨ih1, ih2⟩ := ih (setCounter st (m.module, m.kind)
        (counterOf st (m.module, m.kind) + 1))
      have hother : counterOf (setCounter st (m.module, m.kind)
          (counterOf st (m.module, m.kind) + 1)) (K, k) = counterOf st (K, k) :=
        counterOf_setCounter_other st (m.module, m.kind) (K, k) _ hne
      rw [hother] at ih1 ih2
      have hfc : List.filter (matchesKK K k) (m :: ms)
          = List.filter (matchesKK K k) ms := by
        simp [hm']
      constructor
      · simp only [subsampleRun]
        rw [List.filter_append, ih1, hfc]
        by_cases hfwd : counterOf st (m.module, m.kind) % N = 0
        · rw [if_pos hfwd]
          simp [hm']
        · rw [if_neg hfwd]
          simp
      · simp only [subsampleRun]
        rw [ih2, hfc]

/-- C6: for a subscription configured with subsample factor `N`, every
(key, kind) stream of matching messages has exactly its occurrences
`0, N, 2N, …` (0-indexed) forwarded to the dispatch hook, and the per-key
occurrence counter advances on every matching message regardless of the
forwarding decision. -/
theorem subsample_every_nth (N : Nat) (hN : 0 < N) (ms : List Message) (K k : String) :
    ((subsampleRun N [] ms).2.filter (matchesKK K k))
      = everyNthFrom N 0 (ms.filter (matchesKK K k)) ∧
    counterOf (subsampleRun N [] ms).1 (K, k)
      = (ms.filter (matchesKK K k)).length := by
  have h := subsample_aux N K k ms []
  have h0 : counterOf [] (K, k) = 0 := rfl
  rw [h0] at h
  simpa using h

/-- C6 witness: with subsample factor `2` and a four-message stream holding
three occurrences of (key `"L1"`, kind `"act"`), occurrences `0` and `2` are
forwarded and the counter ends at `3`. -/
theorem subsample_every_nth_witness :
    ((subsampleRun 2 [] [c1m1, c1m3, c1m1, c1m1]).2.filter (matchesKK "L1" "act"))
      = everyNthFrom 2 0 ([c1m1, c1m3, c1m1, c1m1].filter (matchesKK "L1" "act")) ∧
    counterOf (subsampleRun 2 [] [c1m1, c1m3, c1m1, c1m1]).1 ("L1", "act")
      = ([c1m1, c1m3, c1m1, c1m1].filter (matchesKK "L1" "act")).length :=
  subsample_every_nth 2 (by decide) [c1m1, c1m3, c1m1, c1m1] "L1" "act"

/-! ### Helpers for round-level reasoning (claim C1) -/

theorem lookup_of_mem_nodup {α β : Type} [BEq α] [LawfulBEq α] [DecidableEq α]
    (l : List (α × β)) (hnd : (l.map Prod.fst).Nodup) (k : α) (v : β)
    (h : (k, v) ∈ l) : List.lookup k l = some v := by
  induction l with
  | nil => cases h
  | cons x xs ih =>
    obtain ⟨a, b⟩ := x
    rw [List.map_cons] at hnd
    obtain ⟨hnd1, hnd2⟩ := List.nodup_cons.mp hnd
    rcases List.mem_cons.mp h with heq | htl
    · rw [Prod.mk.injEq] at heq
      obtain ⟨h1, h2⟩ := heq
      subst h1
      subst h2
      rw [lookup_cons_eq, if_pos rfl]
    · have hka : k ≠ a := by
        intro he
        subst he
        have hm := List.mem_map_of_mem Prod.fst htl
        exact hnd1 hm
      rw [lookup_cons_eq, if_neg hka]
      exact ih hnd2 htl

theorem lookup_filter_none {α β : Type} [BEq α] [LawfulBEq α] [DecidableEq α]
    (l : List (α × β)) (P : α × β → Bool) (k : α) (h : k ∉ l.map Prod.fst) :
    List.lookup k (l.filter P) = none := by
  rw [lookup_eq_none_iff]
  intro hmem
  obtain ⟨p, hp, hpk⟩ := List.mem_map.mp hmem
  exact h (List.mem_map.mpr ⟨p, List.mem_of_mem_filter hp, hpk⟩)

theorem lookup_filter_nodup {α β : Type} [BEq α] [LawfulBEq α] [DecidableEq α]
    (l : List (α × β)) (hnd : (l.map Prod.fst).Nodup) (P : α × β → Bool) (k : α) :
    List.lookup k (l.filter P)
      = match List.lookup k l with
        | some v => if P (k, v) = true then some v else none
        | none => none := by
  induction l with
  | nil => simp
  | cons x xs ih =>
    obtain ⟨a, b⟩ := x
    rw [List.map_cons] at hnd
    obtain ⟨hnd1, hnd2⟩ := List.nodup_cons.mp hnd
    by_cases hka : k = a
    · subst hka
      by_cases hP : P (k, b) = true
      · rw [List.filter_cons_of_pos hP, lookup_cons_eq, if_pos rfl,
          lookup_cons_eq, if_pos rfl]
        simp [hP]
      · rw [List.filter_cons_of_neg hP, lookup_cons_eq, if_pos rfl]
        rw [lookup_filter_none xs P k hnd1]
        simp only []
        rw [if_neg hP]
    · rw [lookup_cons_eq, if_neg hka]
      by_cases hP : P (a, b) = true
      · rw [List.filter_cons_of_pos hP, lookup_cons_eq, if_neg hka]
        exact ih hnd2
      · rw [List.filter_cons_of_neg hP]
        exact ih hnd2

theorem kindsReceived_append (K : String) (p q : List Message) :
    kindsReceived K (p ++ q) = kindsReceived K p ++ kindsReceived K q := by
  unfold kindsReceived
  rw [List.filter_append, List.map_append]

theorem kindsReceived_single (K : String) (m : Message) :
    kindsReceived K [m] = if m.module = K then [m.kind] else [] := by
  unfold kindsReceived
  by_cases h : m.module = K
  · simp [h]
  · simp [h]

theorem coversB_iff (kinds : List String) (K : String) (ms : List Message) :
    coversB kinds K ms = true ↔ ∀ k ∈ kinds, k ∈ kindsReceived K ms := by
  unfold coversB
  rw [List.all_eq_true]
  simp

theorem coversB_mono (kinds : List String) (K : String) (p q : List Message)
    (h : coversB kinds K p = true) : coversB kinds K (p ++ q) = true := by
  rw [coversB_iff] at h ⊢
  intro k hk
  rw [kindsReceived_append]
  exact List.mem_append_left _ (h k hk)

theorem coversB_append_other (kinds : List String) (K : String) (p : List Message)
    (m : Message) (h : m.module ≠ K) :
    coversB kinds K (p ++ [m]) = coversB kinds K p := by
  unfold coversB
  rw [kindsReceived_append, kindsReceived_single, if_neg h, List.append_nil]

theorem mem_kindsReceived_iff_pairs (K k : String) (ms : List Message) :
    k ∈ kindsReceived K ms ↔ (K, k) ∈ msgPairs ms := by
  unfold kindsReceived msgPairs
  simp only [List.mem_map, List.mem_filter]
  constructor
  · rintro ⟨m, ⟨hm, hmod⟩, hkind⟩
    refine ⟨m, hm, ?_⟩
    rw [Prod.mk.injEq]
    exact ⟨by simpa using hmod, hkind⟩
  · rintro ⟨m, hm, hpair⟩
    rw [Prod.mk.injEq] at hpair
    exact ⟨m, ⟨hm, by simp [hpair.1]⟩, hpair.2⟩

theorem complete_iff_covers (kinds : List String) (K : String) (ms' : List Message)
    (d : ModuleData)
    (hkeys : d._data.map Prod.fst = dedupFirst kinds)
    (hvals : ∀ k v, List.lookup k d._data = some v →
      (v.isSome = true ↔ k ∈ kindsReceived K ms')) :
    d.complete = coversB kinds K ms' := by
  have hnd : (d._data.map Prod.fst).Nodup := by
    rw [hkeys]
    exact nodup_dedupFirst kinds
  by_cases hcov : coversB kinds K ms' = true
  · rw [hcov]
    unfold ModuleData.complete
    rw [List.all_eq_true]
    intro p hp
    obtain ⟨k, v⟩ := p
    have hlook := lookup_of_mem_nodup _ hnd k v hp
    have hk_kinds : k ∈ kinds := by
      have hmem : k ∈ d._data.map Prod.fst := by
        simpa using List.mem_map_of_mem Prod.fst hp
      rw [hkeys, mem_dedupFirst] at hmem
      exact hmem
    exact (hvals k v hlook).mpr ((coversB_iff kinds K ms').mp hcov k hk_kinds)
  · have hcov' : coversB kinds K ms' = false := by
      cases hx : coversB kinds K ms'
      · rfl
      · exact absurd hx hcov
    rw [hcov']
    have hex : ∃ k ∈ kinds, k ∉ kindsReceived K ms' := by
      by_contra hall
      push_neg at hall
      exact hcov ((coversB_iff kinds K ms').mpr hall)
    obtain ⟨k, hk, hkr⟩ := hex
    have hkmem : k ∈ d._data.map Prod.fst := by
      rw [hkeys, mem_dedupFirst]
      exact hk
    cases hlk : List.lookup k d._data with
    | none => exact absurd ((lookup_eq_none_iff _ _).mp hlk) (by simpa using hkmem)
    | some v =>
      cases v with
      | none => exact complete_false_of_lookup_none d k hlk
      | some p => exact absurd ((hvals k (some p) hlk).mp rfl) hkr

theorem syncNewMessage_seq_match (kinds : List String) (s : Nat)
    (mods : List (String × ModuleData)) (m : Message) (hseq : m.seq = s) :
    syncNewMessage kinds ⟨some s, mods⟩ m
      = match syncAdd kinds mods m with
        | .error e => .error e
        | .ok mods' =>
          .ok (⟨some s, mods'.filter (fun p => !p.2.complete)⟩,
               (mods'.filter (fun p => p.2.complete)).map Prod.snd) := by
  unfold syncNewMessage
  have hguard : ¬ ((⟨some s, mods⟩ : SyncState)._current_seq = none ∨
      (⟨some s, mods⟩ : SyncState)._current_seq ≠ some m.seq) := by
    simp [hseq]
  rw [if_neg hguard]

theorem syncAdd_ok_cases (kinds : List String) (mods : List (String × ModuleData))
    (m : Message) (mods' : List (String × ModuleData))
    (h : syncAdd kinds mods m = .ok mods') :
    ∃ d₀ d', d₀.add_message m = .ok d' ∧
      ((List.lookup m.module mods = some d₀ ∧ mods' = dictSet mods m.module d') ∨
       (List.lookup m.module mods = none ∧ d₀ = ModuleData.init m.module kinds ∧
        mods' = mods ++ [(m.module, d')])) := by
  unfold syncAdd at h
  cases hl : List.lookup m.module mods with
  | some d =>
    rw [hl] at h
    simp only [] at h
    cases ha : d.add_message m with
    | error e => rw [ha] at h; exact absurd h (by simp)
    | ok d' =>
      rw [ha] at h
      simp only [] at h
      injection h with h
      exact ⟨d, d', ha, Or.inl ⟨rfl, h.symm⟩⟩
  | none =>
    rw [hl] at h
    simp only [] at h
    cases ha : (ModuleData.init m.module kinds).add_message m with
    | error e => rw [ha] at h; exact absurd h (by simp)
    | ok d' =>
      rw [ha] at h
      simp only [] at h
      injection h with h
      exact ⟨ModuleData.init m.module kinds, d', ha, Or.inr ⟨rfl, rfl, h.symm⟩⟩

theorem scan_delivers_single (mods' : List (String × ModuleData)) (K₀ : String)
    (d' : ModuleData)
    (hnd : (mods'.map Prod.fst).Nodup)
    (hK₀ : List.lookup K₀ mods' = some d')
    (hothers : ∀ p ∈ mods', p.1 ≠ K₀ → p.2.complete = false) :
    (mods'.filter (fun p => p.2.complete)).map Prod.snd
      = if d'.complete = true then [d'] else [] := by
  induction mods' with
  | nil => rw [List.lookup_nil] at hK₀; cases hK₀
  | cons x xs ih =>
    obtain ⟨a, b⟩ := x
    rw [List.map_cons] at hnd
    obtain ⟨hnd1, hnd2⟩ := List.nodup_cons.mp hnd
    by_cases hak : a = K₀
    · subst hak
      rw [lookup_cons_eq, if_pos rfl] at hK₀
      injection hK₀ with hK₀
      subst hK₀
      have htail : xs.filter (fun p => p.2.complete) = [] := by
        rw [List.filter_eq_nil_iff]
        intro p hp
        have hpa : p.1 ≠ a := by
          intro he
          have hm := List.mem_map_of_mem Prod.fst hp
          rw [he] at hm
          exact hnd1 hm
        simp [hothers p (List.mem_cons_of_mem _ hp) hpa]
      by_cases hc : b.complete = true
      · rw [if_pos hc, List.filter_cons_of_pos (by simpa using hc), htail]
        rfl
      · rw [if_neg hc, List.filter_cons_of_neg (by simpa using hc), htail]
        rfl
    · rw [lookup_cons_eq, if_neg (Ne.symm hak)] at hK₀
      have hbc : b.complete = false :=
        hothers (a, b) (List.mem_cons_self _ _) hak
      rw [List.filter_cons_of_neg (by simp [hbc])]
      exact ih hnd2 hK₀ (fun p hp hpk => hothers p (List.mem_cons_of_mem _ hp) hpk)


theorem msgPairs_append (p q : List Message) :
    msgPairs (p ++ q) = msgPairs p ++ msgPairs q := by
  unfold msgPairs
  rw [List.map_append]

theorem pair_not_in_past (past rest : List Message) (m : Message)
    (hm : m ∈ rest) (hnd : (msgPairs (past ++ rest)).Nodup) :
    (m.module, m.kind) ∉ msgPairs past := by
  intro hmem
  rw [msgPairs_append, List.nodup_append] at hnd
  exact hnd.2.2 hmem (List.mem_map_of_mem _ hm)

theorem syncRound_step (kinds : List String) (past : List Message) (m : Message)
    (mods' : List (String × ModuleData)) (d' : ModuleData)
    (hA4 : (mods'.map Prod.fst).Nodup)
    (hA5 : List.lookup m.module mods' = some d')
    (hA6 : ∀ K dd, K ≠ m.module → List.lookup K mods' = some dd →
        dd._module = K ∧ dd._data.map Prod.fst = dedupFirst kinds ∧
        (∀ k v, List.lookup k dd._data = some v →
          (v.isSome = true ↔ k ∈ kindsReceived K past)) ∧ dd.complete = false)
    (hA6n : ∀ K, K ≠ m.module → List.lookup K mods' = none →
        kindsReceived K past = [] ∨ coversB kinds K past = true)
    (hd'mod : d'._module = m.module)
    (hd'keys : d'._data.map Prod.fst = dedupFirst kinds)
    (hd'vals : ∀ k v, List.lookup k d'._data = some v →
        (v.isSome = true ↔ k ∈ kindsReceived m.module (past ++ [m]))) :
    ((mods'.filter (fun p => p.2.complete)).map Prod.snd
        = if d'.complete = true then [d'] else []) ∧
    RoundInv kinds (past ++ [m]) (mods'.filter (fun p => !p.2.complete)) ∧
    d'.complete = coversB kinds m.module (past ++ [m]) := by
  have hothers : ∀ p ∈ mods', p.1 ≠ m.module → p.2.complete = false := by
    intro p hp hpm
    obtain ⟨K, dd⟩ := p
    have hl := lookup_of_mem_nodup mods' hA4 K dd hp
    exact (hA6 K dd hpm hl).2.2.2
  have hrecv_other : ∀ K : String, K ≠ m.module →
      kindsReceived K (past ++ [m]) = kindsReceived K past := by
    intro K hKm'
    rw [kindsReceived_append, kindsReceived_single, if_neg (Ne.symm hKm'),
      List.append_nil]
  refine ⟨scan_delivers_single mods' m.module d' hA4 hA5 hothers, ⟨?_, ?_, ?_⟩,
    complete_iff_covers kinds m.module (past ++ [m]) d' hd'keys hd'vals⟩
  · have hsub : List.Sublist ((mods'.filter (fun p => !p.2.complete)).map Prod.fst)
        (mods'.map Prod.fst) :=
      (List.filter_sublist _).map Prod.fst
    exact hA4.sublist hsub
  · intro K d hK
    rw [lookup_filter_nodup mods' hA4] at hK
    cases hKm : List.lookup K mods' with
    | none => rw [hKm] at hK; cases hK
    | some dd =>
      rw [hKm] at hK
      simp only [] at hK
      by_cases hcomp : dd.complete = true
      · rw [if_neg (by simp [hcomp])] at hK
        cases hK
      · have hcomp' : dd.complete = false := by
          cases hx : dd.complete
          · rfl
          · exact absurd hx hcomp
        rw [if_pos (by simp [hcomp'])] at hK
        injection hK with hK
        subst hK
        by_cases hKm' : K = m.module
        · subst hKm'
          rw [hA5] at hKm
          injection hKm with hKm
          subst hKm
          exact ⟨hd'mod, hd'keys, hd'vals, hcomp'⟩
        · obtain ⟨p1, p2, p3, p4⟩ := hA6 K dd hKm' hKm
          refine ⟨p1, p2, ?_, p4⟩
          intro k v hv
          rw [hrecv_other K hKm']
          exact p3 k v hv
  · intro K hK
    rw [lookup_filter_nodup mods' hA4] at hK
    cases hKm : List.lookup K mods' with
    | some dd =>
      rw [hKm] at hK
      simp only [] at hK
      by_cases hcomp : dd.complete = true
      · by_cases hKm' : K = m.module
        · subst hKm'
          rw [hA5] at hKm
          injection hKm with hKm
          right
          rw [← complete_iff_covers kinds m.module (past ++ [m]) d' hd'keys hd'vals,
            hKm]
          exact hcomp
        · exact absurd (hothers (K, dd) (lookup_mem _ _ _ hKm) hKm') (by simp [hcomp])
      · have hcomp' : dd.complete = false := by
          cases hx : dd.complete
          · rfl
          · exact absurd hx hcomp
        rw [if_pos (by simp [hcomp'])] at hK
        cases hK
    | none =>
      rw [hKm] at hK
      by_cases hKm' : K = m.module
      · subst hKm'
        rw [hA5] at hKm
        cases hKm
      · rcases hA6n K hKm' hKm with hempty | hcov
        · left
          rw [hrecv_other K hKm']
          exact hempty
        · right
          exact coversB_mono kinds K past [m] hcov

theorem dictSet_vals (past : List Message) (m : Message) (d₀ : ModuleData)
    (hA3 : ∀ k v, List.lookup k d₀._data = some v →
        (v.isSome = true ↔ k ∈ kindsReceived m.module past))
    (hlook0 : List.lookup m.kind d₀._data = some none)
    (hmp : m.payload.isSome = true) :
    ∀ k v, List.lookup k (dictSet d₀._data m.kind m.payload) = some v →
      (v.isSome = true ↔ k ∈ kindsReceived m.module (past ++ [m])) := by
  intro k v hv
  have hrecv : kindsReceived m.module (past ++ [m])
      = kindsReceived m.module past ++ [m.kind] := by
    rw [kindsReceived_append, kindsReceived_single, if_pos rfl]
  rw [hrecv]
  rw [lookup_dictSet] at hv
  by_cases hk : k = m.kind
  · rw [if_pos hk, hlook0] at hv
    simp only [Option.map] at hv
    injection hv with hv
    subst hv
    constructor
    · intro _
      subst hk
      exact List.mem_append_right _ (List.mem_singleton_self _)
    · intro _
      exact hmp
  · rw [if_neg hk] at hv
    rw [List.mem_append]
    have h3 := hA3 k v hv
    constructor
    · intro hs
      exact Or.inl (h3.mp hs)
    · rintro (hs | hs)
      · exact h3.mpr hs
      · exact absurd (List.mem_singleton.mp hs) hk

theorem syncRound_aux (kinds : List String) (s : Nat) (msgs : List Message) :
    ∀ (past : List Message) (mods : List (String × ModuleData))
      (stF : SyncState) (delivered : List ModuleData),
    (∀ m ∈ msgs, m.seq = s) →
    (∀ m ∈ msgs, m.payload.isSome = true) →
    (msgPairs (past ++ msgs)).Nodup →
    RoundInv kinds past mods →
    syncRun kinds ⟨some s, mods⟩ msgs = .ok (stF, delivered) →
    (∀ d ∈ delivered, d.complete = true) ∧
    (∀ K, (delivered.filter (fun d => d._module == K)).length
        = if coversB kinds K past = true then 0
          else if coversB kinds K (past ++ msgs) = true then 1 else 0) := by
  induction msgs with
  | nil =>
    intro past mods stF delivered hseq hpay hnd hinv hrun
    unfold syncRun at hrun
    injection hrun with hrun
    have hdel : delivered = [] := (congrArg Prod.snd hrun).symm
    subst hdel
    refine ⟨by simp, fun K => ?_⟩
    rw [List.append_nil]
    by_cases hc : coversB kinds K past = true
    · simp [hc]
    · simp [hc]
  | cons m ms ih =>
    intro past mods stF delivered hseq hpay hnd hinv hrun
    obtain ⟨hinvnd, hinv2, hinv3⟩ := hinv
    have hms : m.seq = s := hseq m (List.mem_cons_self _ _)
    have hmp : m.payload.isSome = true := hpay m (List.mem_cons_self _ _)
    unfold syncRun at hrun
    rw [syncNewMessage_seq_match kinds s mods m hms] at hrun
    cases hadd : syncAdd kinds mods m with
    | error e =>
      rw [hadd] at hrun
      exact absurd hrun (by simp)
    | ok mods' =>
      rw [hadd] at hrun
      simp only [] at hrun
      cases hrest : syncRun kinds
          ⟨some s, mods'.filter (fun p => !p.2.complete)⟩ ms with
      | error e =>
        rw [hrest] at hrun
        exact absurd hrun (by simp)
      | ok res =>
        obtain ⟨st'', dels⟩ := res
        rw [hrest] at hrun
        simp only [] at hrun
        injection hrun with hpair
        have hdel : delivered
            = (mods'.filter (fun p => p.2.complete)).map Prod.snd ++ dels :=
          (congrArg Prod.snd hpair).symm
        obtain ⟨d₀, d', haddm, hcase⟩ := syncAdd_ok_cases kinds mods m mods' hadd
        obtain ⟨hstep0, hepoch0, hmod0, hlook0, hd'⟩ :=
          (add_message_ok_iff _ _ _).mp haddm
        have hd'data : d'._data = dictSet d₀._data m.kind m.payload := by
          rw [hd']
        have hd'mod : d'._module = m.module := by
          rw [hd']
          exact hmod0
        have hnotpast : (m.module, m.kind) ∉ msgPairs past :=
          pair_not_in_past past (m :: ms) m (List.mem_cons_self _ _) hnd
        have hA2 : d₀._data.map Prod.fst = dedupFirst kinds := by
          rcases hcase with ⟨hfound, -⟩ | ⟨-, hd₀, -⟩
          · exact (hinv2 m.module d₀ hfound).2.1
          · rw [hd₀]
            exact map_fst_dictOfKeys kinds
        have hkind_mem : m.kind ∈ kinds := by
          have hm1 := lookup_mem _ _ _ hlook0
          have hm2 := List.mem_map_of_mem Prod.fst hm1
          rw [hA2, mem_dedupFirst] at hm2
          exact hm2
        have hcov0 : coversB kinds m.module past = false := by
          cases hx : coversB kinds m.module past
          · rfl
          · exfalso
            have hrk := (coversB_iff kinds m.module past).mp hx m.kind hkind_mem
            exact hnotpast ((mem_kindsReceived_iff_pairs _ _ _).mp hrk)
        have hA3 : ∀ k v, List.lookup k d₀._data = some v →
            (v.isSome = true ↔ k ∈ kindsReceived m.module past) := by
          rcases hcase with ⟨hfound, -⟩ | ⟨hnonef, hd₀, -⟩
          · exact (hinv2 m.module d₀ hfound).2.2.1
          · rcases hinv3 m.module hnonef with hempty | hcov
            · intro k v hv
              rw [hd₀] at hv
              have hv' : List.lookup k (dictOfKeys kinds) = some v := hv
              rw [lookup_dictOfKeys] at hv'
              by_cases hkk : k ∈ kinds
              · rw [if_pos hkk] at hv'
                injection hv' with hv'
                subst hv'
                rw [hempty]
                simp
              · rw [if_neg hkk] at hv'
                cases hv'
            · rw [hcov] at hcov0
              cases hcov0
        have hA456 : (mods'.map Prod.fst).Nodup ∧
            List.lookup m.module mods' = some d' ∧
            (∀ K, K ≠ m.module →
              List.lookup K mods' = List.lookup K mods) := by
          rcases hcase with ⟨hfound, hmods'⟩ | ⟨hnonef, -, hmods'⟩
          · refine ⟨?_, ?_, ?_⟩
            · rw [hmods', map_fst_dictSet]
              exact hinvnd
            · rw [hmods', lookup_dictSet, if_pos rfl, hfound]
              rfl
            · intro K hK
              rw [hmods', lookup_dictSet, if_neg hK]
          · refine ⟨?_, ?_, ?_⟩
            · rw [hmods', List.map_append, List.nodup_append]
              refine ⟨hinvnd, List.nodup_singleton _, ?_⟩
              intro a ha hb
              have hb' : a = m.module := by simpa using hb
              subst hb'
              exact ((lookup_eq_none_iff _ _).mp hnonef) ha
            · rw [hmods', lookup_append, hnonef]
              simp only []
              rw [lookup_cons_eq, if_pos rfl]
            · intro K hK
              rw [hmods', lookup_append]
              cases hx : List.lookup K mods
              · simp only []
                rw [lookup_cons_eq, if_neg hK, List.lookup_nil]
              · rfl
        obtain ⟨hA4, hA5, hA6eq⟩ := hA456
        have hA6 : ∀ K dd, K ≠ m.module → List.lookup K mods' = some dd →
            dd._module = K ∧ dd._data.map Prod.fst = dedupFirst kinds ∧
            (∀ k v, List.lookup k dd._data = some v →
              (v.isSome = true ↔ k ∈ kindsReceived K past)) ∧
            dd.complete = false := by
          intro K dd hK hl
          rw [hA6eq K hK] at hl
          exact hinv2 K dd hl
        have hA6n : ∀ K, K ≠ m.module → List.lookup K mods' = none →
            kindsReceived K past = [] ∨ coversB kinds K past = true := by
          intro K hK hl
          rw [hA6eq K hK] at hl
          exact hinv3 K hl
        have hd'keys : d'._data.map Prod.fst = dedupFirst kinds := by
          rw [hd'data, map_fst_dictSet]
          exact hA2
        have hd'vals : ∀ k v, List.lookup k d'._data = some v →
            (v.isSome = true ↔ k ∈ kindsReceived m.module (past ++ [m])) := by
          intro k v hv
          rw [hd'data] at hv
          exact dictSet_vals past m d₀ hA3 hlook0 hmp k v hv
        obtain ⟨hscan, hinv', hcompcov⟩ :=
          syncRound_step kinds past m mods' d' hA4 hA5 hA6 hA6n hd'mod hd'keys hd'vals
        have hih := ih (past ++ [m]) (mods'.filter (fun p => !p.2.complete)) st'' dels
          (fun x hx => hseq x (List.mem_cons_of_mem _ hx))
          (fun x hx => hpay x (List.mem_cons_of_mem _ hx))
          (by rw [List.append_assoc, List.singleton_append]; exact hnd)
          hinv' hrest
        have hassoc : (past ++ [m]) ++ ms = past ++ m :: ms := by
          rw [List.append_assoc, List.singleton_append]
        constructor
        · intro d hd
          rw [hdel] at hd
          rcases List.mem_append.mp hd with hdx | hdx
          · obtain ⟨p, hp, hpd⟩ := List.mem_map.mp hdx
            rw [← hpd]
            exact (List.mem_filter.mp hp).2
          · exact hih.1 d hdx
        · intro K
          rw [hdel, List.filter_append, List.length_append, hscan]
          have hihK := hih.2 K
          rw [hassoc] at hihK
          by_cases hKm' : K = m.module
          · subst hKm'
            by_cases hcomp : d'.complete = true
            · have hcovm : coversB kinds m.module (past ++ [m]) = true := by
                rw [← hcompcov]
                exact hcomp
              have hcovfull : coversB kinds m.module (past ++ m :: ms) = true := by
                rw [← hassoc]
                exact coversB_mono kinds m.module (past ++ [m]) ms hcovm
              rw [hcovm] at hihK
              simp only [if_pos rfl] at hihK
              rw [if_pos hcomp, hcov0, hcovfull]
              have hfl : (([d'] : List ModuleData).filter
                  (fun d => d._module == m.module)).length = 1 := by
                simp [hd'mod]
              rw [hfl, hihK]
              simp
            · have hcovm : coversB kinds m.module (past ++ [m]) = false := by
                rw [← hcompcov]
                cases hx : d'.complete
                · rfl
                · exact absurd hx hcomp
              rw [hcovm] at hihK
              simp only [Bool.false_eq_true, if_false] at hihK
              rw [if_neg hcomp, hcov0, hihK]
              simp
          · have hfirst0 : ((if d'.complete = true then [d'] else []).filter
                (fun d => d._module == K)).length = 0 := by
              by_cases hcomp : d'.complete = true
              · rw [if_pos hcomp]
                have hb : (d'._module == K) = false := by
                  rw [hd'mod]
                  simpa using (Ne.symm hKm')
                simp [hb]
              · rw [if_neg hcomp]
                rfl
            have hcoveq : coversB kinds K (past ++ [m]) = coversB kinds K past :=
              coversB_append_other kinds K past m (fun h => hKm' h.symm)
            rw [hcoveq] at hihK
            rw [hfirst0, Nat.zero_add]
            exact hihK

/-- C1: completeness-then-delivery for `SynchronizedSubscription`.  Within a
round (messages all carrying the same seq, each (key, kind) forwarded at most
once as the spec requires, payloads present, at least one expected kind), the
subscriber callback receives a bundle for key `K` if and only if messages of
all expected kinds for `K` were forwarded before the round closed — and then
exactly once: the completed bundle is evicted from the buffer on delivery, so
the count of deliveries for `K` is `1` when the kinds were covered and `0`
otherwise, and every delivered bundle is complete. -/
theorem sync_completeness_then_delivery (kinds : List String) (hk : kinds ≠ [])
    (s : Nat) (msgs : List Message)
    (hseq : ∀ m ∈ msgs, m.seq = s)
    (hpay : ∀ m ∈ msgs, m.payload.isSome = true)
    (hnd : (msgPairs msgs).Nodup)
    (stF : SyncState) (delivered : List ModuleData)
    (hrun : syncRun kinds ⟨some s, []⟩ msgs = .ok (stF, delivered)) :
    (∀ d ∈ delivered, d.complete = true) ∧
    (∀ K, (delivered.filter (fun d => d._module == K)).length
        = if coversB kinds K msgs = true then 1 else 0) := by
  have hinv0 : RoundInv kinds [] [] := by
    refine ⟨by simp, ?_, ?_⟩
    · intro K d hK
      rw [List.lookup_nil] at hK
      cases hK
    · intro K hK
      left
      rfl
  have h := syncRound_aux kinds s msgs [] [] stF delivered hseq hpay
    (by simpa using hnd) hinv0 hrun
  refine ⟨h.1, fun K => ?_⟩
  have h2 := h.2 K
  have hcovnil : coversB kinds K [] = false := by
    cases hx : coversB kinds K []
    · rfl
    · exfalso
      obtain ⟨k, hkk⟩ := List.exists_mem_of_ne_nil kinds hk
      have hmem := (coversB_iff kinds K []).mp hx k hkk
      simp [kindsReceived] at hmem
  rw [hcovnil] at h2
  simp only [Bool.false_eq_true, if_false] at h2
  rw [List.nil_append] at h2
  exact h2

/-- C1 witness: kinds `["act", "grad"]`, one round of seq `1` with both kinds
for key `"L1"` but only `"grad"` for key `"L2"`: exactly one bundle is
delivered, it is complete, and its key is `"L1"`. -/
theorem sync_completeness_then_delivery_witness :
    (∀ d ∈ ([⟨"L1", ["act", "grad"], [("act", some 4), ("grad", some 6)],
        some 1, some 0⟩] : List ModuleData), d.complete = true) ∧
    (∀ K, (([⟨"L1", ["act", "grad"], [("act", some 4), ("grad", some 6)],
        some 1, some 0⟩] : List ModuleData).filter
          (fun d => d._module == K)).length
        = if coversB ["act", "grad"] K [c1m1, c1m2, c1m3] = true then 1 else 0) :=
  sync_completeness_then_delivery ["act", "grad"] (by decide) 1 [c1m1, c1m2, c1m3]
    (by decide) (by decide) (by decide)
    ⟨some 1, [("L2", ⟨"L2", ["act", "grad"], [("act", none), ("grad", some 5)],
      some 1, some 0⟩)]⟩
    [⟨"L1", ["act", "grad"], [("act", some 4), ("grad", some 6)], some 1, some 0⟩]
    rfl
